import Mathlib

/-!
# Verification of the UK-companies-house-scraper extraction pipeline

Shallow embedding of the enhanced scraper (`src/unnamed/part_002`, third
document, lines 2020-3624) and of the server-side parameter validation
(`src/server.ts`).  JavaScript string/number primitives are modelled as
follows: strings are Lean `String`s (ASCII behaviour of `toLowerCase`,
`trim`, `includes`, `startsWith`); JS `number` arithmetic is modelled as
exact rational arithmetic with `Math.round` as round-half-up (floats are
not modelled bit-for-bit); `parseInt` is modelled for decimal inputs
(the hex `0x` prefix form is not modelled); regular-expression tests are
modelled by direct scanning functions proved deterministic for the two
concrete patterns used by the code.
-/

/-! ## JavaScript primitive models -/

/-- JS `\d` character class (ASCII digits). -/
def jsDigit (c : Char) : Bool := '0' ≤ c && c ≤ '9'

/-- JS `\s` character class, restricted to the ASCII whitespace characters. -/
def jsSpace (c : Char) : Bool :=
  c = ' ' || c = '\t' || c = '\n' || c = '\r' || c = '\x0b' || c = '\x0c'

/-- JS `\w` character class. -/
def jsWordChar (c : Char) : Bool :=
  ('a' ≤ c && c ≤ 'z') || ('A' ≤ c && c ≤ 'Z') || jsDigit c || c = '_'

/-- Is `sub` a contiguous infix of `s` (boolean executable form)? -/
def infixCheck (sub : List Char) : List Char → Bool
  | [] => sub.isEmpty
  | c :: rest => sub.isPrefixOf (c :: rest) || infixCheck sub rest

/-- JS `String.prototype.includes(sub)`. -/
def jsIncludes (s sub : String) : Bool := infixCheck sub.data s.data

/-- JS `String.prototype.toLowerCase` (ASCII model).  Defined over the
character list so that it reduces in the kernel. -/
def jsToLower (s : String) : String := String.mk (s.data.map Char.toLower)

/-- JS `String.prototype.trim` (ASCII whitespace model). -/
def jsTrim (s : String) : String :=
  String.mk (((s.data.dropWhile jsSpace).reverse.dropWhile jsSpace).reverse)

/-- JS `String.prototype.startsWith(pre)`. -/
def jsStartsWith (s pre : String) : Bool := pre.data.isPrefixOf s.data

/-- Digit run to a natural number. -/
def digitsToNat (ds : List Char) : Nat :=
  ds.foldl (fun acc c => acc * 10 + (c.toNat - '0'.toNat)) 0

/-- JS `parseInt` on a string argument (decimal form): skip leading
whitespace, optional sign, then a maximal digit prefix; `none` models
`NaN` when no digit is found. -/
def jsParseInt (s : String) : Option Int :=
  let cs := s.data.dropWhile jsSpace
  let signAndRest : Int × List Char :=
    match cs with
    | '-' :: r => (-1, r)
    | '+' :: r => (1, r)
    | r => (1, r)
  let ds := signAndRest.2.takeWhile jsDigit
  if ds.length = 0 then none
  else some (signAndRest.1 * (digitsToNat ds : Int))

/-- JS `Math.round` (round half toward positive infinity) on the exact
rational model of JS numbers. -/
def jsRound (q : ℚ) : ℤ := ⌊q + 1/2⌋

/-! ## Regex models

The scraper uses two regular expressions on data cells:
`/\d{1,2}\s+\w+\s+\d{4}/` (date validation, unanchored `String.match`)
and `/\((\d+)\s+pages?\)/i` (page-count extraction).  Both are modelled
by maximal-munch scanners.  For these two patterns maximal munch is
equivalent to the backtracking regex semantics: adjacent subpatterns
draw from disjoint character classes (`\d ∩ \s = ∅`, `\w ∩ \s = ∅`),
so no backtracking across a boundary can succeed where maximal munch
fails, and for `\d{1,2}` a third adjacent digit makes both the 2-digit
and the 1-digit alternative fail.
-/

/-- Does `/\d{1,2}\s+\w+\s+\d{4}/` match at the head of `cs`? -/
def datePatternAt (cs : List Char) : Bool :=
  let ds := cs.takeWhile jsDigit
  decide (1 ≤ ds.length) && decide (ds.length ≤ 2) &&
    (let r1 := cs.drop ds.length
     let s1 := r1.takeWhile jsSpace
     decide (1 ≤ s1.length) &&
       (let r2 := r1.drop s1.length
        let ws := r2.takeWhile jsWordChar
        decide (1 ≤ ws.length) &&
          (let r3 := r2.drop ws.length
           let s2 := r3.takeWhile jsSpace
           decide (1 ≤ s2.length) &&
             decide (4 ≤ ((r3.drop s2.length).takeWhile jsDigit).length))))

/-- Unanchored search for the date pattern. -/
def hasDateMatch : List Char → Bool
  | [] => false
  | c :: rest => datePatternAt (c :: rest) || hasDateMatch rest

/-- Model of `date.match(/\d{1,2}\s+\w+\s+\d{4}/)` succeeds. -/
def matchesDatePattern (s : String) : Bool := hasDateMatch s.data

/-- Match `/\((\d+)\s+pages?\)/i` at the head of `cs`; returns the first
capture group (the digit run). -/
def pageCountAt (cs : List Char) : Option String :=
  match cs with
  | '(' :: rest =>
    let ds := rest.takeWhile jsDigit
    if ds.length = 0 then none
    else
      let r1 := rest.drop ds.length
      let s1 := r1.takeWhile jsSpace
      if s1.length = 0 then none
      else
        match r1.drop s1.length with
        | p :: a :: g :: e :: r2 =>
          if p.toLower = 'p' && a.toLower = 'a' && g.toLower = 'g' && e.toLower = 'e' then
            match r2 with
            | ')' :: _ => some (String.mk ds)
            | s :: ')' :: _ => if s.toLower = 's' then some (String.mk ds) else none
            | _ => none
          else none
        | _ => none
  | _ => none

/-- Leftmost match of the page-count pattern. -/
def findPageCount : List Char → Option String
  | [] => none
  | c :: rest =>
    match pageCountAt (c :: rest) with
    | some v => some v
    | none => findPageCount rest

/-- Model of `parentText.match(/\((\d+)\s+pages?\)/i)`, first capture group. -/
def searchPageCount (s : String) : Option String := findPageCount s.data

/-! ## Data model (interfaces of `part_002`, third document) -/

/-- The `DocumentLink` interface. -/
structure DocumentLink where
  linkText : String
  linkType : String
  url : String
  pageCount : String
deriving Repr, DecidableEq

/-- The `FilingData` interface. -/
structure FilingData where
  date : String
  description : String
  type : String
  status : String
  documentLinks : List DocumentLink
deriving Repr, DecidableEq

/-- The `FilingStatistics` interface.  `totalDocumentPages` is an `Option`
because JS `parseInt` can produce `NaN` (modelled `none`), which then
propagates through the sum. -/
structure FilingStatistics where
  totalFilings : Nat
  filingsWithDocuments : Nat
  totalDocumentPages : Option Int
  documentSuccessRate : Int
  filingTypes : List (String × Nat)
deriving Repr, DecidableEq

/-- Company overview as produced by `extractOverview`'s zod schema. -/
structure OverviewData where
  companyName : String
  companyNumber : String
  status : String
  incorporationDate : Option String
  companyType : Option String
  registeredAddress : Option String
deriving Repr, DecidableEq

/-- Officer link record. -/
structure OfficerLink where
  linkText : String
  url : String
  linkType : String
deriving Repr, DecidableEq

/-- Officer record (fields of the people-extraction schema). -/
structure OfficerData where
  name : String
  role : String
  appointmentDate : Option String
  resignationDate : Option String
  nationality : Option String
  occupation : Option String
  address : Option String
  dateOfBirth : Option String
  links : List OfficerLink
deriving Repr, DecidableEq

/-- The `PeopleData` record returned by `extractPeople`. -/
structure PeopleData where
  officers : List OfficerData
  totalOfficers : Nat
  pagesScraped : Nat
  activeOfficers : Nat
  resignedOfficers : Nat
deriving Repr, DecidableEq

/-- Charge record per the charges-extraction schema. -/
structure ChargeRecord where
  description : String
  status : String
  createdDate : Option String
  chargeholder : Option String
deriving Repr, DecidableEq

/-- Result object of `extractCharges` (present even when `charges` is empty). -/
structure ChargesData where
  charges : List ChargeRecord
deriving Repr, DecidableEq

/-! ## `ScraperUtils.categorizeFilingType` -/

/-- Function `categorizeFilingType` (lines 2153-2168 / 2422-2437): ordered
substring rules over the lowercased description, first match wins. -/
def categorizeFilingType (description : String) : String :=
  let desc := jsToLower description
  if jsIncludes desc "confirmation statement" then "Confirmation Statement"
  else if jsIncludes desc "annual return" then "Annual Return"
  else if jsIncludes desc "accounts" && jsIncludes desc "micro" then "Micro Company Accounts"
  else if jsIncludes desc "accounts" && jsIncludes desc "small" then "Small Company Accounts"
  else if jsIncludes desc "accounts" && jsIncludes desc "dormant" then "Dormant Company Accounts"
  else if jsIncludes desc "accounts" then "Company Accounts"
  else if jsIncludes desc "incorporation" then "Incorporation"
  else if jsIncludes desc "appointment" then "Officer Appointment"
  else if jsIncludes desc "termination" || jsIncludes desc "resignation" then "Officer Termination"
  else if jsIncludes desc "change" && jsIncludes desc "details" then "Officer Details Change"
  else if jsIncludes desc "resolution" then "Resolution"
  else if jsIncludes desc "charge" then "Charge Registration"
  else "Other"

/-- The registry's fixed origin used to absolutize root-relative hrefs. -/
def registryOrigin : String := "https://find-and-update.company-information.service.gov.uk"


/-! ## Direct DOM extraction (`PDFExtractor.extractWithDirectDOM`, lines 2249-2342)

The in-page DOM is modelled by the data the extraction callback reads:
anchor elements carry their `href` attribute, text content, class list
and the text content of their parent element; cells carry their text
content and contained anchors; the filing table is its list of `tr`
rows (header included), each row its list of `td` cells. -/

/-- An `<a>` element as read by the extraction code. -/
structure DomAnchor where
  href : Option String
  text : String
  classes : List String
  parentText : String
deriving Repr, DecidableEq

/-- A `<td>` cell. -/
structure DomCell where
  text : String
  anchors : List DomAnchor
deriving Repr, DecidableEq

/-- A `<tr>` row (its `td` cells). -/
structure DomRow where
  cells : List DomCell
deriving Repr, DecidableEq

/-- The `#fhTable` element: all its `tr` rows, header first. -/
structure FilingTable where
  rows : List DomRow
deriving Repr, DecidableEq

/-- URL absolutization used by every strategy: hrefs starting with `/`
are prefixed with the registry origin, everything else is untouched. -/
def mkFullUrl (href : String) : String :=
  if jsStartsWith href "/" then registryOrigin ++ href else href

/-- Link-type classification of the Direct DOM strategy (text/href
heuristics, `href` being the raw attribute value). -/
def domLinkType (linkText href : String) : String :=
  if jsIncludes (jsToLower linkText) "ixbrl" || jsIncludes href "format=xhtml" then "iXBRL"
  else if jsIncludes (jsToLower linkText) "xml" then "XML"
  else "PDF"

/-- One anchor of the link cell → document link (Direct DOM strategy).
Skipped unless both the `href` attribute and the trimmed text are
non-empty (JS truthiness of `href && linkText`). -/
def domLinkOf (a : DomAnchor) : Option DocumentLink :=
  match a.href with
  | none => none
  | some href =>
    let linkText := jsTrim a.text
    if href ≠ "" ∧ linkText ≠ "" then
      some { linkText := linkText
             linkType := domLinkType linkText href
             url := mkFullUrl href
             pageCount := (searchPageCount a.parentText).getD "" }
    else none

/-- Model of `querySelectorAll('a.download.link-updater-js')` on the link cell,
then per-anchor processing. -/
def domDocumentLinks (linksCell : DomCell) : List DocumentLink :=
  (linksCell.anchors.filter
    (fun a => a.classes.contains "download" && a.classes.contains "link-updater-js")).filterMap
    domLinkOf

/-- A default empty cell (used only under the `cells.length ≥ 3` guard,
where the indexed accesses always succeed). -/
def emptyCell : DomCell := { text := "", anchors := [] }

/-- One table row → filing record (Direct DOM strategy).  Mirrors the
row loop: rows with fewer than 3 cells are skipped; `cells[0]` is the
date, `cells[1]` the type column when there are more than 3 cells
(otherwise no type), the description is `cells[2]` (resp. `cells[1]`),
and the last cell holds the document links; rows whose trimmed date is
empty or fails the date regex are dropped. -/
def domRowFiling (row : DomRow) : Option FilingData :=
  let cells := row.cells
  if cells.length < 3 then none
  else
    let date := jsTrim (cells.getD 0 emptyCell).text
    let typeText := if 3 < cells.length then jsTrim (cells.getD 1 emptyCell).text else ""
    let description :=
      if 3 < cells.length then jsTrim (cells.getD 2 emptyCell).text
      else jsTrim (cells.getD 1 emptyCell).text
    let linksCell := cells.getLastD emptyCell
    if date = "" ∨ matchesDatePattern date = false then none
    else
      let documentLinks := domDocumentLinks linksCell
      if description ≠ "" then
        some { date := date
               description := description
               type := if typeText ≠ "" then typeText else categorizeFilingType description
               status := "Filed"
               documentLinks := documentLinks }
      else none

/-- Function `extractWithDirectDOM`: `none` models a page without the `#fhTable`
element (the callback returns `[]`); otherwise the header row is
skipped and each remaining row is processed. -/
def extractWithDirectDOM (table : Option FilingTable) : List FilingData :=
  match table with
  | none => []
  | some t => (t.rows.drop 1).filterMap domRowFiling

/-! ## LLM extraction (`PDFExtractor.extractWithLLM`, lines 2344-2419) -/

/-- A document link as returned by the LLM structured-extraction schema. -/
structure LLMDocLink where
  linkText : String
  url : String
  pageCount : Option String
deriving Repr, DecidableEq

/-- A filing row as returned by the LLM structured-extraction schema. -/
structure LLMFiling where
  date : String
  description : String
  documentLinks : List LLMDocLink
deriving Repr, DecidableEq

/-- Post-processing of one LLM link: absolutize a root-relative url,
classify the type (using the rewritten url for the `format=xhtml`
test), default the text and page count. -/
def processLLMLink (link : LLMDocLink) : DocumentLink :=
  let url := if link.url ≠ "" ∧ jsStartsWith link.url "/" then registryOrigin ++ link.url else link.url
  let linkType :=
    if jsIncludes (jsToLower link.linkText) "ixbrl" || jsIncludes url "format=xhtml" then "iXBRL"
    else if jsIncludes (jsToLower link.linkText) "xml" then "XML"
    else "PDF"
  { linkText := if link.linkText ≠ "" then link.linkText else "View Document"
    linkType := linkType
    url := url
    pageCount := link.pageCount.getD "" }

/-- Post-processing of one LLM filing row: categorize the type from the
description and keep only links whose url is non-empty and longer than
10 characters.  The date is passed through unvalidated. -/
def processLLMFiling (filing : LLMFiling) : FilingData :=
  { date := filing.date
    description := filing.description
    type := categorizeFilingType filing.description
    status := "Filed"
    documentLinks :=
      (filing.documentLinks.map processLLMLink).filter
        (fun l => decide (l.url ≠ "" ∧ 10 < l.url.length)) }

/-- Function `extractWithLLM`: the whole call is wrapped in try/catch returning
`[]` on failure; on success every returned row is post-processed. -/
def extractWithLLM (raw : Except String (List LLMFiling)) : List FilingData :=
  match raw with
  | .error _ => []
  | .ok filings => filings.map processLLMFiling

/-! ## Hybrid extraction (`PDFExtractor.extractWithHybridApproach`, lines 2440-2529) -/

/-- A row of the DOM pre-pass (`{date, description, linkCellHTML}`),
paired with the outcome of the per-row LLM link-extraction call. -/
structure HybridRow where
  date : String
  description : String
  linkCellHTML : String
deriving Repr, DecidableEq

/-- A link the per-row LLM call returns (`{url, text, pageCount}`). -/
structure HybridLink where
  url : String
  text : String
  pageCount : Option String
deriving Repr, DecidableEq

/-- Per-row processing of the hybrid strategy: a failed LLM call skips
the row entirely; otherwise links are absolutized and classified
(`PDF`/`iXBRL` only) and the row is kept when date and description are
non-empty. -/
def hybridRowFiling (row : HybridRow) (linkRes : Except String (List HybridLink)) :
    Option FilingData :=
  match linkRes with
  | .error _ => none
  | .ok links =>
    let documentLinks := links.map (fun l =>
      let url := if l.url ≠ "" ∧ jsStartsWith l.url "/" then registryOrigin ++ l.url else l.url
      let linkType :=
        if jsIncludes (jsToLower l.text) "ixbrl" || jsIncludes url "format=xhtml" then "iXBRL"
        else "PDF"
      ({ linkText := if l.text ≠ "" then l.text else "View Document"
         linkType := linkType
         url := url
         pageCount := l.pageCount.getD "" } : DocumentLink))
    if row.date ≠ "" ∧ row.description ≠ "" then
      some { date := row.date
             description := row.description
             type := categorizeFilingType row.description
             status := "Filed"
             documentLinks := documentLinks }
    else none

/-- Function `extractWithHybridApproach`: `none` models a missing/empty table
structure (return `[]`); otherwise each pre-pass row is processed with
its LLM outcome.  Dates are passed through unvalidated. -/
def extractWithHybridApproach
    (rows : Option (List (HybridRow × Except String (List HybridLink)))) : List FilingData :=
  match rows with
  | none => []
  | some rs =>
    if rs.length = 0 then []
    else rs.filterMap (fun rr => hybridRowFiling rr.1 rr.2)

/-! ## Strategy runner (`PDFExtractor.extractWithMultipleStrategies`, lines 2531-2561) -/

/-- Success criterion of the runner: the strategy returned a non-empty
list containing at least one filing with a non-empty `documentLinks`. -/
def strategySucceeds (o : Except String (List FilingData)) : Bool :=
  match o with
  | .error _ => false
  | .ok rs =>
    decide (0 < rs.length) &&
      decide (0 < (rs.filter (fun f => decide (0 < f.documentLinks.length))).length)

/-- The value the runner returns from a strategy outcome. -/
def strategyResult (o : Except String (List FilingData)) : List FilingData :=
  match o with
  | .error _ => []
  | .ok rs => rs

/-- The runner: walk the ordered strategy outcomes, return the full
result list of the first succeeding strategy, `[]` when all are
exhausted.  A thrown strategy (`error`) is caught and skipped. -/
def extractWithMultipleStrategies : List (Except String (List FilingData)) → List FilingData
  | [] => []
  | o :: rest =>
    if strategySucceeds o then strategyResult o else extractWithMultipleStrategies rest

/-- The fixed strategy order of the source: Direct DOM, then LLM, then
Hybrid. -/
def extractFilingsAllStrategies (dom llm hyb : Except String (List FilingData)) :
    List FilingData :=
  extractWithMultipleStrategies [dom, llm, hyb]

/-! ## Filing statistics (`calculateFilingStatistics`, lines 3428-3449) -/

/-- The filings counted as having documents
(`filings.filter(f => f.documentLinks && f.documentLinks.length > 0)`). -/
def filingsWithDocs (filings : List FilingData) : List FilingData :=
  filings.filter (fun f => decide (0 < f.documentLinks.length))

/-- Model of `parseInt(link.pageCount || "0")` with `NaN` propagation through the
`reduce` sum. -/
def totalPagesSum (filings : List FilingData) : Option Int :=
  ((filings.map (fun f => f.documentLinks)).flatten).foldl
    (fun acc link =>
      match acc, jsParseInt (if link.pageCount ≠ "" then link.pageCount else "0") with
      | some s, some v => some (s + v)
      | _, _ => none)
    (some 0)

/-- Histogram update for one filing type. -/
def bumpType (m : List (String × Nat)) (ty : String) : List (String × Nat) :=
  match m with
  | [] => [(ty, 1)]
  | (k, v) :: rest => if k = ty then (k, v + 1) :: rest else (k, v) :: bumpType rest ty

/-- Function `calculateFilingStatistics`: counts, page-count sum, success rate
(JS number arithmetic modelled as exact rationals, `Math.round` as
round-half-up) and the filing-type histogram. -/
def calculateFilingStatistics (filings : List FilingData) : FilingStatistics :=
  let withDocs := filingsWithDocs filings
  { totalFilings := filings.length
    filingsWithDocuments := withDocs.length
    totalDocumentPages := totalPagesSum filings
    documentSuccessRate :=
      if 0 < filings.length then
        jsRound (((withDocs.length : ℚ) / (filings.length : ℚ)) * 100)
      else 0
    filingTypes := filings.foldl (fun m f => bumpType m f.type) [] }

/-! ## Filing-history pagination
(`extractFilingHistory` lines 3156-3237, with `getTotalPageCount`
lines 3074-3096, `navigateToFilingPage` lines 3098-3132 and
`getCurrentFilingPage` lines 3134-3154)

The page environment abstracts the browser: `estimatedTotalPages` is
what `getTotalPageCount` reports, `filingsOn k` is what
`extractWithMultipleStrategies` yields once the loop is processing page
`k`, and `observedPage k` is what `getCurrentFilingPage` reports at
that point. -/

/-- Abstraction of the browser state during filing pagination. -/
structure PageEnv where
  estimatedTotalPages : Nat
  filingsOn : Nat → List FilingData
  observedPage : Nat → Nat

/-- Observable record of one pagination run: accumulated filings, the
`pagesScraped` counter, the pages on which extraction ran, the pages
for which `navigateToFilingPage` was called, and the
`(requested, observed)` pairs of the `getCurrentFilingPage` identity
checks. -/
structure ScanState where
  filings : List FilingData
  scraped : Nat
  extracted : List Nat
  navs : List Nat
  checks : List (Nat × Nat)
deriving Repr, DecidableEq

/-- One-for-one model of the `for (pageNum = 1; pageNum <= pagesToScan;
pageNum++)` loop body: navigate when `pageNum > 1`, extract and count
the page as scraped, then either accumulate the page's filings, or — on
an empty page — ask `getCurrentFilingPage` and break when it disagrees
with the requested page. -/
def scanPages (env : PageEnv) : Nat → Nat → ScanState → ScanState
  | 0, _, st => st
  | n + 1, pageNum, st =>
    let st1 : ScanState :=
      { st with
        navs := if 1 < pageNum then st.navs ++ [pageNum] else st.navs
        extracted := st.extracted ++ [pageNum]
        scraped := st.scraped + 1 }
    let pf := env.filingsOn pageNum
    if 0 < pf.length then
      scanPages env n (pageNum + 1) { st1 with filings := st1.filings ++ pf }
    else
      let st2 := { st1 with checks := st1.checks ++ [(pageNum, env.observedPage pageNum)] }
      if env.observedPage pageNum = pageNum then scanPages env n (pageNum + 1) st2
      else st2

/-- The full pagination run:
`pagesToScan = min(estimatedTotalPages, maxPages)` pages starting at 1. -/
def filingPagination (env : PageEnv) (maxPages : Nat) : ScanState :=
  scanPages env (min env.estimatedTotalPages maxPages) 1
    { filings := [], scraped := 0, extracted := [], navs := [], checks := [] }

/-- Return value of `extractFilingHistory` when it finds any filings.
The `dateRange` field is not modelled (it is computed with JS `Date`
parsing, outside this embedding, and no claim concerns it). -/
structure FilingHistoryResult where
  filings : List FilingData
  totalFilings : Nat
  pagesScraped : Nat
  statistics : FilingStatistics
deriving Repr, DecidableEq

/-- Function `extractFilingHistory`: run the pagination loop and return `null`
(`none`) when no filings were accumulated, otherwise the aggregate with
`pagesScraped` and the computed statistics. -/
def extractFilingHistory (env : PageEnv) (maxPages : Nat) : Option FilingHistoryResult :=
  let st := filingPagination env maxPages
  if st.filings.length = 0 then none
  else
    some { filings := st.filings
           totalFilings := st.filings.length
           pagesScraped := st.scraped
           statistics := calculateFilingStatistics st.filings }

/-! ## Quality scoring (`calculateQualityScore`, lines 3475-3521) -/

/-- Root aggregate (`ScrapingResult`).  JS-truthiness of the optional
sections is modelled with `Option`; a missing string field of the
overview is modelled as `""` (falsy). -/
structure ScrapingResult where
  query : String
  extractionTimestamp : String
  qualityScore : Int
  dataIssues : List String
  overview : Option OverviewData
  filing : Option FilingHistoryResult
  people : Option PeopleData
  charges : Option ChargesData
deriving Repr, DecidableEq

/-- Function `calculateQualityScore`: returns the clamped score together with
the `issues` list that the source assigns to `result.dataIssues`.
Overview presence adds a flat 25 (missing name/number only add issues);
filings add 25 plus a 15/10/5/0 bonus from `documentSuccessRate`
thresholds; officers add 20; a present charges section adds 15. -/
def calculateQualityScore (r : ScrapingResult) : Int × List String :=
  let s0 : Int := 0
  let i0 : List String := []
  let s1 := if r.overview.isSome then s0 + 25 else s0
  let i1 :=
    match r.overview with
    | some ov =>
      i0 ++ (if ov.companyName = "" then ["Missing company name"] else [])
         ++ (if ov.companyNumber = "" then ["Missing company number"] else [])
    | none => i0 ++ ["No company overview extracted"]
  let s2 :=
    match r.filing with
    | some fs =>
      if 0 < fs.filings.length then
        s1 + 25 +
          (if 80 < fs.statistics.documentSuccessRate then 15
           else if 50 < fs.statistics.documentSuccessRate then 10
           else if 20 < fs.statistics.documentSuccessRate then 5
           else 0)
      else s1
    | none => s1
  let i2 :=
    match r.filing with
    | some fs =>
      if 0 < fs.filings.length then
        (i1 ++ (if 80 < fs.statistics.documentSuccessRate then []
                else if 50 < fs.statistics.documentSuccessRate then []
                else if 20 < fs.statistics.documentSuccessRate then []
                else ["Low PDF document extraction rate"]))
          ++ (if fs.filings.length < 3 then ["Very limited filing history"] else [])
      else i1 ++ ["No filing history extracted"]
    | none => i1 ++ ["No filing history extracted"]
  let peoplePresent : Bool :=
    match r.people with
    | some p => decide (0 < p.officers.length)
    | none => false
  let s3 := if peoplePresent then s2 + 20 else s2
  let i3 := if peoplePresent then i2 else i2 ++ ["No officer information extracted"]
  let s4 := if r.charges.isSome then s3 + 15 else s3
  let i4 := if r.charges.isSome then i3 else i3 ++ ["No charges information extracted"]
  (max 0 (min 100 s4), i4)

/-! ## Orchestrator (`scrapeCompany`, lines 3524-3558)

Every extraction phase catches its own errors and yields `null` for its
section (`extractOverview` lines 2988-3010, `extractFilingHistory`
lines 3233-3236, `extractPeople` lines 3315-3318, `extractCharges`
lines 3422-3425), so after a successful `searchCompany` no exception
can reach the orchestrator's try/catch.  Phase outcomes are passed in
as `Except` values: `error` is a phase that would have thrown
internally. -/

/-- The internal catch of a phase: a thrown phase yields `null`. -/
def phaseCatch {α : Type} (e : Except String α) : Option α :=
  match e with
  | .error _ => none
  | .ok v => some v

/-- Body of `scrapeCompany` up to its outer catch: `searchCompany` is
the only operation that can still throw. -/
def scrapeCompanyBody (query ts : String)
    (search : Except String Unit)
    (rawOverview : Except String OverviewData)
    (filingNav : Except String PageEnv) (maxFilingPages : Nat)
    (rawPeople : Except String (Option PeopleData))
    (rawCharges : Except String ChargesData) : Except String ScrapingResult := do
  let _ ← search
  let overview := phaseCatch rawOverview
  let filing :=
    match filingNav with
    | .error _ => none
    | .ok env => extractFilingHistory env maxFilingPages
  let people :=
    match rawPeople with
    | .error _ => none
    | .ok v => v
  let charges := phaseCatch rawCharges
  let r0 : ScrapingResult :=
    { query := query, extractionTimestamp := ts, qualityScore := 0, dataIssues := []
      overview := overview, filing := filing, people := people, charges := charges }
  let sc := calculateQualityScore r0
  pure { r0 with qualityScore := sc.1, dataIssues := sc.2 }

/-- Function `scrapeCompany` with its outer try/catch: a thrown error (company
search/selection failure) is converted into a returned result carrying
`qualityScore = 0` and a `Scraping failed` data issue. -/
def scrapeCompany (query ts : String)
    (search : Except String Unit)
    (rawOverview : Except String OverviewData)
    (filingNav : Except String PageEnv) (maxFilingPages : Nat)
    (rawPeople : Except String (Option PeopleData))
    (rawCharges : Except String ChargesData) : ScrapingResult :=
  match scrapeCompanyBody query ts search rawOverview filingNav maxFilingPages rawPeople rawCharges with
  | .ok r => r
  | .error msg =>
    { query := query, extractionTimestamp := ts, qualityScore := 0
      dataIssues := ["Scraping failed: " ++ msg]
      overview := none, filing := none, people := none, charges := none }

/-! ## Server-side parameter validation (`src/server.ts`)

`Validator.validateMaxPages` (lines 77-97) and the
`POST /api/enhanced-report` handler (lines 337-380).  Request-body
values are modelled as JS values; the company-name validation is
abstracted into a boolean outcome since the claim under consideration
only concerns the `maxPages` path. -/

/-- A JS value as it can occur for a request-body field. -/
inductive JSValue
  | undefined
  | null
  | num (n : Int)
  | str (s : String)
deriving Repr, DecidableEq

/-- JS truthiness of a request-body value. -/
def jsTruthy : JSValue → Bool
  | .undefined => false
  | .null => false
  | .num n => n ≠ 0
  | .str s => s ≠ ""

/-- Model of `parseInt` applied to a JS value (`none` = `NaN`). -/
def jsParseIntV : JSValue → Option Int
  | .undefined => none
  | .null => none
  | .num n => some n
  | .str s => jsParseInt s

/-- Function `Validator.validateMaxPages`: `(valid, value)`; absent → 10, `NaN`
→ invalid with 10, below 1 → invalid with 1, above 50 → invalid with
50, otherwise valid with the parsed value. -/
def validateMaxPages (v : JSValue) : Bool × Int :=
  if v = .undefined ∨ v = .null then (true, 10)
  else
    match jsParseIntV v with
    | none => (false, 10)
    | some n =>
      if n < 1 then (false, 1)
      else if 50 < n then (false, 50)
      else (true, n)

/-- Outcome of the `POST /api/enhanced-report` handler before the
scraper runs: either a 400 rejection from company-name validation, or
the scraper invocation with the validated page limits. -/
inductive HandlerOutcome
  | rejected (code : String)
  | scraped (maxPages maxPeoplePages : Int)
deriving Repr, DecidableEq

/-- The handler's validation prologue: `maxPages` is validated and its
clamped value is used regardless of validity (an invalid value only
logs a warning); `maxPeoplePages` is defaulted via `|| 5`; only
company-name validation can reject the request. -/
def enhancedReportHandler (companyValid : Bool) (maxPages maxPeoplePages : JSValue) :
    HandlerOutcome :=
  let mp := (validateMaxPages maxPages).2
  let mpp := (validateMaxPages (if jsTruthy maxPeoplePages then maxPeoplePages else .num 5)).2
  if companyValid = false then .rejected "VALIDATION_ERROR"
  else .scraped mp mpp

/-! ## Concrete fixtures used by the witnesses and counterexamples -/

/-- A well-formed document link. -/
def sampleLink : DocumentLink :=
  { linkText := "View PDF", linkType := "PDF", url := registryOrigin ++ "/doc/1", pageCount := "3" }

/-- A well-formed filing with one document link. -/
def sampleFiling : FilingData :=
  { date := "01 Jan 2024", description := "Confirmation statement made on 1 January 2024"
    type := "Confirmation Statement", status := "Filed", documentLinks := [sampleLink] }

/-- A filing without document links. -/
def bareFiling : FilingData :=
  { date := "02 Feb 2024", description := "Registered office address changed"
    type := "Other", status := "Filed", documentLinks := [] }

/-- A company page reporting 5 total filing pages, every page populated,
page indicator consistent. -/
def fivePageEnv : PageEnv :=
  { estimatedTotalPages := 5, filingsOn := fun _ => [sampleFiling], observedPage := fun k => k }

/-! ## Claim theorems -/

/-- C1.  `extractWithMultipleStrategies` tries Direct DOM, LLM, Hybrid
in that fixed order and returns the full result list of the first
strategy that succeeds (yields a non-empty list with at least one
filing whose `documentLinks` is non-empty); a strategy that throws
(`Except.error`) or yields no such filing is skipped, and when all
three are exhausted the extractor returns `[]` — it is a total
function, so no exception propagates. -/
theorem multiStrategy_priority_order :
    (∀ dom llm hyb : Except String (List FilingData),
      extractFilingsAllStrategies dom llm hyb =
        if strategySucceeds dom then strategyResult dom
        else if strategySucceeds llm then strategyResult llm
        else if strategySucceeds hyb then strategyResult hyb
        else [])
    ∧ (∀ o : Except String (List FilingData),
        strategySucceeds o = true ↔
          ∃ rs, o = Except.ok rs ∧ ∃ f ∈ rs, f.documentLinks ≠ []) := by
  constructor
  · intro dom llm hyb
    simp only [extractFilingsAllStrategies, extractWithMultipleStrategies]
  · intro o
    cases o with
    | error e => simp [strategySucceeds]
    | ok rs =>
      simp only [strategySucceeds, Bool.and_eq_true, decide_eq_true_eq]
      constructor
      · rintro ⟨-, hfil⟩
        rw [List.length_pos] at hfil
        obtain ⟨f, hf⟩ := List.exists_mem_of_ne_nil _ hfil
        rw [List.mem_filter, decide_eq_true_eq, List.length_pos] at hf
        exact ⟨rs, rfl, f, hf.1, hf.2⟩
      · rintro ⟨rs', heq, f, hf, hlinks⟩
        cases heq
        have hmem : f ∈ rs.filter (fun f => decide (0 < f.documentLinks.length)) :=
          List.mem_filter.mpr ⟨hf, by simpa [List.length_pos] using hlinks⟩
        exact ⟨List.length_pos.mpr (List.ne_nil_of_mem hf),
          List.length_pos.mpr (List.ne_nil_of_mem hmem)⟩

/-- C1 witness: with a failing DOM strategy, an LLM strategy producing
one filing with a link, and an empty hybrid strategy, the runner
returns the LLM result. -/
theorem multiStrategy_priority_order_witness :
    extractFilingsAllStrategies (Except.error "DOM failed")
        (Except.ok [sampleFiling]) (Except.ok []) = [sampleFiling]
    ∧ extractFilingsAllStrategies (Except.error "DOM failed")
        (Except.ok [bareFiling]) (Except.error "hybrid failed") = [] := by
  have h1 := multiStrategy_priority_order.1 (Except.error "DOM failed")
    (Except.ok [sampleFiling]) (Except.ok [])
  have h2 := multiStrategy_priority_order.1 (Except.error "DOM failed")
    (Except.ok [bareFiling]) (Except.error "hybrid failed")
  constructor
  · rw [h1]; decide
  · rw [h2]; decide

/-! ### Fixtures for the Direct DOM strategy -/

/-- A registry-style download anchor with a root-relative href. -/
def domAnchorPdf : DomAnchor :=
  { href := some "/company/00000001/filing-history/x/document?format=pdf&download=0"
    text := " View PDF ", classes := ["download", "link-updater-js"]
    parentText := "View PDF (3 pages)" }

/-- A filing table: one header row and one data row with three cells. -/
def domTable : FilingTable :=
  { rows := [ { cells := [] },
              { cells := [ { text := "01 Jan 2024", anchors := [] },
                           { text := "Confirmation statement made on 1 January 2024", anchors := [] },
                           { text := "", anchors := [domAnchorPdf] } ] } ] }

/-- The document link the Direct DOM strategy produces from `domTable`. -/
def domExpectedLink : DocumentLink :=
  { linkText := "View PDF", linkType := "PDF"
    url := registryOrigin ++ "/company/00000001/filing-history/x/document?format=pdf&download=0"
    pageCount := "3" }

/-- The filing the Direct DOM strategy produces from `domTable`. -/
def domExpectedFiling : FilingData :=
  { date := "01 Jan 2024", description := "Confirmation statement made on 1 January 2024"
    type := "Confirmation Statement", status := "Filed", documentLinks := [domExpectedLink] }

/-! ### Structural lemmas about the Direct DOM strategy -/

/-- A produced filing carries a validated date and the links of the
row's last cell. -/
theorem domRowFiling_fields {row : DomRow} {f : FilingData}
    (h : domRowFiling row = some f) :
    matchesDatePattern f.date = true ∧
    f.documentLinks = domDocumentLinks (row.cells.getLastD emptyCell) := by
  simp only [domRowFiling] at h
  split_ifs at h
  all_goals cases h
  all_goals exact ⟨by simp_all, rfl⟩

/-- Membership in the Direct DOM output comes from a row of the table
body. -/
theorem mem_extractWithDirectDOM {t : Option FilingTable} {f : FilingData}
    (hf : f ∈ extractWithDirectDOM t) :
    ∃ tt row, t = some tt ∧ row ∈ tt.rows.drop 1 ∧ domRowFiling row = some f := by
  cases t with
  | none => simp [extractWithDirectDOM] at hf
  | some tt =>
    simp only [extractWithDirectDOM] at hf
    obtain ⟨row, hrow, hsome⟩ := List.mem_filterMap.mp hf
    exact ⟨tt, row, rfl, hrow, hsome⟩

/-- Each produced link comes from an anchor of the cell, with the url
obtained by `mkFullUrl` from the anchor's href. -/
theorem mem_domDocumentLinks {cell : DomCell} {l : DocumentLink}
    (h : l ∈ domDocumentLinks cell) :
    ∃ a ∈ cell.anchors, ∃ href, a.href = some href ∧ l.url = mkFullUrl href := by
  simp only [domDocumentLinks] at h
  obtain ⟨a, ha, hsome⟩ := List.mem_filterMap.mp h
  refine ⟨a, (List.mem_filter.mp ha).1, ?_⟩
  unfold domLinkOf at hsome
  cases hhref : a.href with
  | none => rw [hhref] at hsome; exact absurd hsome (by simp)
  | some href =>
    rw [hhref] at hsome
    dsimp only at hsome
    split_ifs at hsome with hg
    cases hsome
    exact ⟨href, rfl, rfl⟩

/-- Concatenation `registryOrigin ++ h` never starts with `/`. -/
theorem origin_append_not_slash (h : String) :
    jsStartsWith (registryOrigin ++ h) "/" = false := rfl

/-- A list is a boolean prefix of itself followed by anything. -/
theorem isPrefixOf_append_self (l m : List Char) : l.isPrefixOf (l ++ m) = true := by
  rw [List.isPrefixOf_iff_prefix]
  exact List.prefix_append l m

/-- Concatenation `registryOrigin ++ h` starts with the registry origin. -/
theorem origin_append_starts (h : String) :
    jsStartsWith (registryOrigin ++ h) registryOrigin = true := by
  have hd : (registryOrigin ++ h).data = registryOrigin.data ++ h.data := by
    exact String.data_append registryOrigin h
  simp only [jsStartsWith, hd]
  exact isPrefixOf_append_self _ _

/-- Function `mkFullUrl` output never starts with `/`. -/
theorem mkFullUrl_not_slash (u : String) : jsStartsWith (mkFullUrl u) "/" = false := by
  by_cases hs : jsStartsWith u "/" = true
  · simp only [mkFullUrl, hs, if_true]
    exact origin_append_not_slash u
  · simp only [mkFullUrl, hs, if_false]
    exact Bool.not_eq_true _ |>.mp hs

/-- C2 counterexample: the LLM strategy performs no date validation, so
the extractor's output can contain a record whose date does not match
`\d{1,2}\s+\w+\s+\d{4}` — here the LLM strategy wins (the DOM strategy
threw) and its record with date "bogus date" is returned as-is. -/
theorem llm_date_counterexample :
    ({ date := "bogus date", description := "Some filing", type := "Other", status := "Filed"
       documentLinks := [sampleLink] } : FilingData) ∈
      extractFilingsAllStrategies (Except.error "DOM failed")
        (Except.ok (extractWithLLM (Except.ok
          [{ date := "bogus date", description := "Some filing"
             documentLinks := [{ linkText := "View PDF", url := registryOrigin ++ "/doc/1"
                                 pageCount := some "3" }] }])))
        (Except.ok [])
    ∧ matchesDatePattern "bogus date" = false := by
  refine ⟨by decide, by decide⟩

/-- C2 (amended).  Only the Direct DOM strategy validates dates: every
filing it produces has a date matching `\d{1,2}\s+\w+\s+\d{4}` (rows
failing the pattern are discarded); the LLM and hybrid strategies pass
dates through unvalidated, so the extractor's output satisfies the
pattern only when the Direct DOM strategy is the one that won. -/
theorem directDOM_dates_validated (t : Option FilingTable) (f : FilingData)
    (hf : f ∈ extractWithDirectDOM t) : matchesDatePattern f.date = true := by
  obtain ⟨tt, row, -, -, hsome⟩ := mem_extractWithDirectDOM hf
  exact (domRowFiling_fields hsome).1

/-- C2 witness: the Direct DOM strategy extracts `domExpectedFiling`
from `domTable`, and its date satisfies the pattern. -/
theorem directDOM_dates_validated_witness :
    matchesDatePattern domExpectedFiling.date = true :=
  directDOM_dates_validated (some domTable) domExpectedFiling (by decide)

/-- C3 counterexample: an anchor whose href is an absolute URL on a
foreign origin is passed through unchanged by the Direct DOM strategy,
so an output url need not begin with the registry origin. -/
theorem url_origin_counterexample :
    ({ date := "01 Jan 2024", description := "Some description", type := "Other"
       status := "Filed"
       documentLinks := [{ linkText := "View PDF", linkType := "PDF"
                           url := "https://example.com/doc.pdf", pageCount := "3" }] }
      : FilingData) ∈
      extractWithDirectDOM (some
        { rows := [ { cells := [] },
                    { cells := [ { text := "01 Jan 2024", anchors := [] },
                                 { text := "Some description", anchors := [] },
                                 { text := ""
                                   anchors := [{ href := some "https://example.com/doc.pdf"
                                                 text := "View PDF"
                                                 classes := ["download", "link-updater-js"]
                                                 parentText := "View PDF (3 pages)" }] } ] } ] })
    ∧ jsStartsWith "https://example.com/doc.pdf" registryOrigin = false := by
  refine ⟨by decide, by decide⟩

/-- C3 (amended).  Hrefs beginning with `/` are rewritten to absolute
urls against the fixed registry origin; any other href/url is included
unchanged.  Hence every output url of each of the three strategies
(Direct DOM, LLM, hybrid) never begins with `/`, and it begins with
the registry origin exactly in the rewritten (root-relative) case —
but it need not begin with the origin in general. -/
theorem url_absolutization :
    (∀ (t : Option FilingTable) (f : FilingData) (l : DocumentLink),
      f ∈ extractWithDirectDOM t → l ∈ f.documentLinks →
        jsStartsWith l.url "/" = false ∧
        ∃ href, l.url = mkFullUrl href ∧
          (jsStartsWith href "/" = true →
            l.url = registryOrigin ++ href ∧ jsStartsWith l.url registryOrigin = true))
    ∧ (∀ (raw : Except String (List LLMFiling)) (f : FilingData) (l : DocumentLink),
      f ∈ extractWithLLM raw → l ∈ f.documentLinks →
        jsStartsWith l.url "/" = false ∧
        ∃ u, ((u ≠ "" ∧ jsStartsWith u "/" = true ∧ l.url = registryOrigin ++ u ∧
                jsStartsWith l.url registryOrigin = true)
             ∨ l.url = u))
    ∧ (∀ (rows : Option (List (HybridRow × Except String (List HybridLink))))
        (f : FilingData) (l : DocumentLink),
      f ∈ extractWithHybridApproach rows → l ∈ f.documentLinks →
        jsStartsWith l.url "/" = false ∧
        ∃ u, ((u ≠ "" ∧ jsStartsWith u "/" = true ∧ l.url = registryOrigin ++ u ∧
                jsStartsWith l.url registryOrigin = true)
             ∨ l.url = u)) := by
  refine ⟨?_, ?_, ?_⟩
  · intro t f l hf hl
    obtain ⟨tt, row, -, -, hsome⟩ := mem_extractWithDirectDOM hf
    rw [(domRowFiling_fields hsome).2] at hl
    obtain ⟨a, -, href, -, hurl⟩ := mem_domDocumentLinks hl
    refine ⟨by rw [hurl]; exact mkFullUrl_not_slash href, href, hurl, fun hs => ?_⟩
    rw [hurl]
    simp only [mkFullUrl, hs, if_true]
    exact ⟨by trivial, origin_append_starts href⟩
  · intro raw f l hf hl
    cases raw with
    | error e => simp [extractWithLLM] at hf
    | ok fs =>
      simp only [extractWithLLM] at hf
      obtain ⟨g, -, rfl⟩ := List.mem_map.mp hf
      simp only [processLLMFiling] at hl
      obtain ⟨l', hl', rfl⟩ := List.mem_map.mp (List.mem_of_mem_filter hl)
      simp only [processLLMLink]
      by_cases hc : l'.url ≠ "" ∧ jsStartsWith l'.url "/" = true
      · rw [if_pos hc]
        exact ⟨origin_append_not_slash l'.url, l'.url,
          Or.inl ⟨hc.1, hc.2, rfl, origin_append_starts l'.url⟩⟩
      · rw [if_neg hc]
        refine ⟨?_, l'.url, Or.inr rfl⟩
        rcases eq_or_ne l'.url "" with he | he
        · rw [he]; rfl
        · exact Bool.not_eq_true _ |>.mp ((not_and.mp hc) he)
  · intro rows f l hf hl
    cases rows with
    | none => simp [extractWithHybridApproach] at hf
    | some rs =>
      simp only [extractWithHybridApproach] at hf
      split_ifs at hf with hlen
      · simp at hf
      · obtain ⟨rr, -, hsome⟩ := List.mem_filterMap.mp hf
        rcases hres : rr.2 with msg | links
        · rw [hres] at hsome
          exact absurd hsome (by simp [hybridRowFiling])
        · rw [hres] at hsome
          simp only [hybridRowFiling] at hsome
          split_ifs at hsome with hg
          cases hsome
          obtain ⟨l', -, rfl⟩ := List.mem_map.mp hl
          dsimp only
          by_cases hc : l'.url ≠ "" ∧ jsStartsWith l'.url "/" = true
          · rw [if_pos hc]
            exact ⟨origin_append_not_slash l'.url, l'.url,
              Or.inl ⟨hc.1, hc.2, rfl, origin_append_starts l'.url⟩⟩
          · rw [if_neg hc]
            refine ⟨?_, l'.url, Or.inr rfl⟩
            rcases eq_or_ne l'.url "" with he | he
            · rw [he]; rfl
            · exact Bool.not_eq_true _ |>.mp ((not_and.mp hc) he)

/-- C3 witness: from `domTable` the rewritten root-relative href yields
a url that starts with the registry origin and not with `/`. -/
theorem url_absolutization_witness :
    jsStartsWith domExpectedLink.url "/" = false
    ∧ jsStartsWith domExpectedLink.url registryOrigin = true := by
  have h := url_absolutization.1 (some domTable) domExpectedFiling domExpectedLink
    (by decide) (by decide)
  exact ⟨h.1, by decide⟩

/-- C4 counterexample: a description containing both "accounts" and
"micro" is not always mapped to "Micro Company Accounts" — an earlier
rule can win first. -/
theorem categorize_micro_counterexample :
    jsIncludes (jsToLower "Confirmation statement with micro accounts") "accounts" = true
    ∧ jsIncludes (jsToLower "Confirmation statement with micro accounts") "micro" = true
    ∧ categorizeFilingType "Confirmation statement with micro accounts"
        = "Confirmation Statement"
    ∧ categorizeFilingType "Confirmation statement with micro accounts"
        ≠ "Micro Company Accounts" := by
  refine ⟨by decide, by decide, by decide, by decide⟩

/-- C4 (amended).  `categorizeFilingType` is a pure function of the
description applying the ordered substring rules with first match
winning; a description whose lowercase form contains both "accounts"
and "micro" maps to "Micro Company Accounts" provided no earlier rule
("confirmation statement", "annual return") matches. -/
theorem categorize_micro_guarded (d : String)
    (h1 : jsIncludes (jsToLower d) "confirmation statement" = false)
    (h2 : jsIncludes (jsToLower d) "annual return" = false)
    (h3 : jsIncludes (jsToLower d) "accounts" = true)
    (h4 : jsIncludes (jsToLower d) "micro" = true) :
    categorizeFilingType d = "Micro Company Accounts" := by
  simp [categorizeFilingType, h1, h2, h3, h4]

/-- C4 witness: the spec's scenario string maps to
"Micro Company Accounts". -/
theorem categorize_micro_guarded_witness :
    categorizeFilingType "Micro-entity accounts made up to 31 December 2023 (AA)"
      = "Micro Company Accounts" :=
  categorize_micro_guarded "Micro-entity accounts made up to 31 December 2023 (AA)"
    (by decide) (by decide) (by decide) (by decide)

/-- C7.  `calculateFilingStatistics` returns
`documentSuccessRate = round(100 * filingsWithAnyLink / totalFilings)`
for a non-empty list, `0` for the empty list, and the value always lies
in `[0, 100]` (JS number arithmetic modelled as exact rationals with
round-half-up). -/
theorem documentSuccessRate_range (filings : List FilingData) :
    (filings ≠ [] →
      (calculateFilingStatistics filings).documentSuccessRate =
        jsRound (100 * ((filingsWithDocs filings).length : ℚ) / (filings.length : ℚ)))
    ∧ (filings = [] → (calculateFilingStatistics filings).documentSuccessRate = 0)
    ∧ 0 ≤ (calculateFilingStatistics filings).documentSuccessRate
    ∧ (calculateFilingStatistics filings).documentSuccessRate ≤ 100 := by
  rcases eq_or_ne filings [] with h | h
  · subst h
    refine ⟨by simp, fun _ => by simp [calculateFilingStatistics], by
      simp [calculateFilingStatistics], by simp [calculateFilingStatistics]⟩
  · have hlen : 0 < filings.length := List.length_pos.mpr h
    have hb : (0 : ℚ) < (filings.length : ℚ) := by exact_mod_cast hlen
    have hab : ((filingsWithDocs filings).length : ℚ) ≤ (filings.length : ℚ) := by
      exact_mod_cast List.length_filter_le _ filings
    have ha : (0 : ℚ) ≤ ((filingsWithDocs filings).length : ℚ) := by positivity
    have hrate : (calculateFilingStatistics filings).documentSuccessRate =
        jsRound (((filingsWithDocs filings).length : ℚ) / (filings.length : ℚ) * 100) := by
      simp [calculateFilingStatistics, hlen]
    have hqle : ((filingsWithDocs filings).length : ℚ) / (filings.length : ℚ) * 100 ≤ 100 := by
      have : ((filingsWithDocs filings).length : ℚ) / (filings.length : ℚ) ≤ 1 :=
        (div_le_one hb).mpr hab
      nlinarith
    have hq0 : (0 : ℚ) ≤ ((filingsWithDocs filings).length : ℚ) / (filings.length : ℚ) * 100 := by
      positivity
    refine ⟨fun _ => ?_, fun habs => absurd habs h, ?_, ?_⟩
    · rw [hrate]; ring_nf
    · rw [hrate, jsRound]
      have : (0 : ℚ) ≤ ((filingsWithDocs filings).length : ℚ) / (filings.length : ℚ) * 100 + 1/2 := by
        linarith
      exact Int.le_floor.mpr (by exact_mod_cast this)
    · rw [hrate, jsRound]
      have hlt : ((filingsWithDocs filings).length : ℚ) / (filings.length : ℚ) * 100 + 1/2
          < ((101 : ℤ) : ℚ) := by push_cast; linarith
      have := Int.floor_lt.mpr hlt
      omega

/-- C7 witness: two filings, one with a link — the success rate is
`round(100 * 1/2) = 50`. -/
theorem documentSuccessRate_range_witness :
    (calculateFilingStatistics [sampleFiling, bareFiling]).documentSuccessRate =
      jsRound (100 * ((filingsWithDocs [sampleFiling, bareFiling]).length : ℚ)
        / (([sampleFiling, bareFiling] : List FilingData).length : ℚ))
    ∧ jsRound (100 * (1 : ℚ) / (2 : ℚ)) = 50 := by
  refine ⟨(documentSuccessRate_range [sampleFiling, bareFiling]).1 (by decide), ?_⟩
  norm_num [jsRound]

/-- C10.  `Validator.validateMaxPages` clamps into `[1, 50]`: absent or
unparseable values become 10, values below 1 become 1, values above 50
become 50, in-range values pass through; and the handler never rejects
a request because of `maxPages` — rejection depends only on the
company-name validation, and the clamped value is what reaches the
scraper. -/
theorem validateMaxPages_clamps (v : JSValue) :
    (1 ≤ (validateMaxPages v).2 ∧ (validateMaxPages v).2 ≤ 50)
    ∧ ((v = JSValue.undefined ∨ v = JSValue.null) → validateMaxPages v = (true, 10))
    ∧ (¬(v = JSValue.undefined ∨ v = JSValue.null) → jsParseIntV v = none →
        validateMaxPages v = (false, 10))
    ∧ (∀ k, ¬(v = JSValue.undefined ∨ v = JSValue.null) → jsParseIntV v = some k →
        (validateMaxPages v).2 = if k < 1 then 1 else if 50 < k then 50 else k)
    ∧ (∀ mpp, enhancedReportHandler true v mpp =
        HandlerOutcome.scraped (validateMaxPages v).2
          (validateMaxPages (if jsTruthy mpp then mpp else JSValue.num 5)).2)
    ∧ (∀ mpp, enhancedReportHandler false v mpp = HandlerOutcome.rejected "VALIDATION_ERROR") := by
  refine ⟨?_, ?_, ?_, ?_, ?_, ?_⟩
  · by_cases h : v = JSValue.undefined ∨ v = JSValue.null
    · simp [validateMaxPages, h]
    · rw [validateMaxPages, if_neg h]
      cases hp : jsParseIntV v with
      | none => simp
      | some n =>
        by_cases h1 : n < 1
        · simp [h1]
        · by_cases h2 : 50 < n
          · simp [h1, h2]
          · simp [h1, h2]; omega
  · intro h; simp [validateMaxPages, h]
  · intro h hp; simp [validateMaxPages, h, hp]
  · intro k h hp
    simp only [validateMaxPages, if_neg h, hp]
    split_ifs <;> rfl
  · intro mpp; simp [enhancedReportHandler]
  · intro mpp; simp [enhancedReportHandler]

/-! ### Invariants of the pagination loop -/

/-- Counter `pagesScraped` stays synchronized with the list of pages on which
extraction ran. -/
theorem scan_scraped_len (env : PageEnv) :
    ∀ (n p : Nat) (st : ScanState), st.scraped = st.extracted.length →
      (scanPages env n p st).scraped = (scanPages env n p st).extracted.length := by
  intro n
  induction n with
  | zero => intro p st h; simpa [scanPages] using h
  | succ n ih =>
    intro p st h
    simp only [scanPages]
    split_ifs <;> first
      | (apply ih; simp [h])
      | simp [h]

/-- Extraction runs on at most `n` further pages. -/
theorem scan_scraped_le (env : PageEnv) :
    ∀ (n p : Nat) (st : ScanState), (scanPages env n p st).scraped ≤ st.scraped + n := by
  intro n
  induction n with
  | zero => intro p st; simp [scanPages]
  | succ n ih =>
    intro p st
    simp only [scanPages]
    generalize (if 1 < p then st.navs ++ [p] else st.navs) = nv
    split_ifs with h1 h2
    · refine le_trans (ih _ _) ?_; dsimp only; omega
    · refine le_trans (ih _ _) ?_; dsimp only; omega
    · dsimp only; omega

/-- Auxiliary: appending a page in range preserves the nav bound. -/
theorem navs_snoc_bound {M p : Nat} {l : List Nat}
    (h : ∀ k ∈ l, 2 ≤ k ∧ k ≤ M) (h2 : 2 ≤ p) (hM : p ≤ M) :
    ∀ k ∈ l ++ [p], 2 ≤ k ∧ k ≤ M := by
  intro k hk
  rcases List.mem_append.mp hk with hk | hk
  · exact h k hk
  · rw [List.mem_singleton] at hk; subst hk; exact ⟨h2, hM⟩

/-- Pages navigated to lie in `[2, M]` as long as the loop stays within
its page budget. -/
theorem scan_navs_bound (env : PageEnv) (M : Nat) :
    ∀ (n p : Nat) (st : ScanState), p + n ≤ M + 1 → (∀ k ∈ st.navs, 2 ≤ k ∧ k ≤ M) →
      ∀ k ∈ (scanPages env n p st).navs, 2 ≤ k ∧ k ≤ M := by
  intro n
  induction n with
  | zero => intro p st hpn h; simpa [scanPages] using h
  | succ n ih =>
    intro p st hpn h
    by_cases hp : 1 < p
    · simp only [scanPages, hp, if_true]
      have h' : ∀ k ∈ st.navs ++ [p], 2 ≤ k ∧ k ≤ M :=
        navs_snoc_bound h (by omega) (by omega)
      split_ifs
      · exact ih (p + 1) _ (by omega) h'
      · exact ih (p + 1) _ (by omega) h'
      · exact h'
    · simp only [scanPages, hp, if_false]
      split_ifs
      · exact ih (p + 1) _ (by omega) h
      · exact ih (p + 1) _ (by omega) h
      · exact h

/-- The set of extracted pages only grows. -/
theorem scan_extracted_mono (env : PageEnv) :
    ∀ (n p : Nat) (st : ScanState) (k : Nat),
      k ∈ st.extracted → k ∈ (scanPages env n p st).extracted := by
  intro n
  induction n with
  | zero => intro p st k hk; simpa [scanPages] using hk
  | succ n ih =>
    intro p st k hk
    simp only [scanPages]
    split_ifs <;> first
      | (apply ih; simp [hk])
      | simp [hk]

/-- With fuel remaining, the loop always extracts the page it is on. -/
theorem scan_first_page (env : PageEnv) :
    ∀ (n p : Nat) (st : ScanState), 0 < n → p ∈ (scanPages env n p st).extracted := by
  intro n
  cases n with
  | zero => intro p st h; omega
  | succ n =>
    intro p st _
    simp only [scanPages]
    split_ifs <;> first
      | (apply scan_extracted_mono; simp)
      | simp

/-- Every recorded identity check belongs to a page that yielded zero
records, and records the observed page indicator. -/
theorem scan_checks_zero (env : PageEnv) :
    ∀ (n p : Nat) (st : ScanState),
      (∀ kc ∈ st.checks, env.filingsOn kc.1 = [] ∧ kc.2 = env.observedPage kc.1) →
      ∀ kc ∈ (scanPages env n p st).checks,
        env.filingsOn kc.1 = [] ∧ kc.2 = env.observedPage kc.1 := by
  intro n
  induction n with
  | zero => intro p st h; simpa [scanPages] using h
  | succ n ih =>
    intro p st h
    simp only [scanPages]
    generalize (if 1 < p then st.navs ++ [p] else st.navs) = nv
    split_ifs with h1 h2
    · exact ih _ _ h
    · refine ih _ _ ?_
      intro kc hkc
      rcases List.mem_append.mp hkc with hkc | hkc
      · exact h kc hkc
      · rw [List.mem_singleton] at hkc; subst hkc
        have hz : env.filingsOn p = [] := List.length_eq_zero.mp (by omega)
        exact ⟨hz, rfl⟩
    · intro kc hkc
      rcases List.mem_append.mp hkc with hkc | hkc
      · exact h kc hkc
      · rw [List.mem_singleton] at hkc; subst hkc
        have hz : env.filingsOn p = [] := List.length_eq_zero.mp (by omega)
        exact ⟨hz, rfl⟩

/-- Every extracted page that yielded zero records got an identity
check. -/
theorem scan_extracted_checked (env : PageEnv) :
    ∀ (n p : Nat) (st : ScanState),
      (∀ k ∈ st.extracted, env.filingsOn k = [] → (k, env.observedPage k) ∈ st.checks) →
      ∀ k ∈ (scanPages env n p st).extracted, env.filingsOn k = [] →
        (k, env.observedPage k) ∈ (scanPages env n p st).checks := by
  intro n
  induction n with
  | zero => intro p st h; simpa [scanPages] using h
  | succ n ih =>
    intro p st h
    simp only [scanPages]
    generalize (if 1 < p then st.navs ++ [p] else st.navs) = nv
    split_ifs with h1 h2
    · refine ih _ _ ?_
      intro k hk hke
      rcases List.mem_append.mp hk with hk | hk
      · exact h k hk hke
      · rw [List.mem_singleton] at hk; subst hk
        exact absurd hke (List.length_pos.mp h1)
    · refine ih _ _ ?_
      intro k hk hke
      rcases List.mem_append.mp hk with hk | hk
      · exact List.mem_append_left _ (h k hk hke)
      · rw [List.mem_singleton] at hk; subst hk
        exact List.mem_append_right _ (by simp)
    · intro k hk hke
      rcases List.mem_append.mp hk with hk | hk
      · exact List.mem_append_left _ (h k hk hke)
      · rw [List.mem_singleton] at hk; subst hk
        exact List.mem_append_right _ (by simp)

/-- After a failed identity check the loop stops: no later page is ever
extracted. -/
theorem scan_fail_stop (env : PageEnv) :
    ∀ (n p : Nat) (st : ScanState),
      (∀ kc ∈ st.checks, kc.2 = kc.1) → (∀ j ∈ st.extracted, j < p) →
      ∀ kc ∈ (scanPages env n p st).checks, kc.2 ≠ kc.1 →
        ∀ j ∈ (scanPages env n p st).extracted, j ≤ kc.1 := by
  intro n
  induction n with
  | zero =>
    intro p st hpass _ kc hkc hne
    exact absurd (hpass kc (by simpa [scanPages] using hkc)) hne
  | succ n ih =>
    intro p st hpass hlt
    simp only [scanPages]
    generalize (if 1 < p then st.navs ++ [p] else st.navs) = nv
    split_ifs with h1 h2
    · refine ih (p + 1) _ hpass ?_
      intro j hj
      rcases List.mem_append.mp hj with hj | hj
      · exact Nat.lt_succ_of_lt (hlt j hj)
      · rw [List.mem_singleton] at hj; omega
    · refine ih (p + 1) _ ?_ ?_
      · intro kc hkc
        rcases List.mem_append.mp hkc with hkc | hkc
        · exact hpass kc hkc
        · rw [List.mem_singleton] at hkc; subst hkc; exact h2
      · intro j hj
        rcases List.mem_append.mp hj with hj | hj
        · exact Nat.lt_succ_of_lt (hlt j hj)
        · rw [List.mem_singleton] at hj; omega
    · intro kc hkc hne j hj
      rcases List.mem_append.mp hkc with hkc | hkc
      · exact absurd (hpass kc hkc) hne
      · rw [List.mem_singleton] at hkc; subst hkc
        rcases List.mem_append.mp hj with hj | hj
        · exact le_of_lt (hlt j hj)
        · rw [List.mem_singleton] at hj; omega

/-- A zero-record page that passes the identity check is itself counted
as extracted, and the loop continues onto the next page while fuel
remains. -/
theorem scan_pass_continue (env : PageEnv) :
    ∀ (n p : Nat) (st : ScanState),
      (∀ kc ∈ st.checks, kc.2 = kc.1 →
        kc.1 ∈ st.extracted ∧
          (kc.1 + 1 < p + n → (kc.1 + 1 ∈ st.extracted ∨ kc.1 + 1 = p))) →
      ∀ kc ∈ (scanPages env n p st).checks, kc.2 = kc.1 →
        kc.1 ∈ (scanPages env n p st).extracted ∧
        (kc.1 + 1 < p + n → kc.1 + 1 ∈ (scanPages env n p st).extracted) := by
  intro n
  induction n with
  | zero =>
    intro p st h kc hkc hpass
    simp only [scanPages] at hkc ⊢
    obtain ⟨h1, h2⟩ := h kc hkc hpass
    refine ⟨h1, fun hb => ?_⟩
    rcases h2 hb with h3 | h3
    · exact h3
    · omega
  | succ n ih =>
    intro p st h
    simp only [scanPages]
    generalize (if 1 < p then st.navs ++ [p] else st.navs) = nv
    split_ifs with h1 h2
    · have := ih (p + 1)
        { st with
          navs := nv
          extracted := st.extracted ++ [p]
          scraped := st.scraped + 1
          filings := st.filings ++ env.filingsOn p }
        (by
          intro kc hkc hpass
          obtain ⟨ha, hb⟩ := h kc hkc hpass
          refine ⟨List.mem_append_left _ ha, fun hlt => ?_⟩
          rcases hb (by omega) with hc | hc
          · exact Or.inl (List.mem_append_left _ hc)
          · exact Or.inl (by rw [hc]; exact List.mem_append_right _ (by simp)))
      intro kc hkc hpass
      obtain ⟨ha, hb⟩ := this kc hkc hpass
      exact ⟨ha, fun hlt => hb (by omega)⟩
    · have := ih (p + 1)
        { st with
          navs := nv
          extracted := st.extracted ++ [p]
          scraped := st.scraped + 1
          checks := st.checks ++ [(p, env.observedPage p)] }
        (by
          intro kc hkc hpass
          rcases List.mem_append.mp hkc with hkc | hkc
          · obtain ⟨ha, hb⟩ := h kc hkc hpass
            refine ⟨List.mem_append_left _ ha, fun hlt => ?_⟩
            rcases hb (by omega) with hc | hc
            · exact Or.inl (List.mem_append_left _ hc)
            · exact Or.inl (by rw [hc]; exact List.mem_append_right _ (by simp))
          · rw [List.mem_singleton] at hkc; subst hkc
            exact ⟨List.mem_append_right _ (by simp), fun _ => Or.inr rfl⟩)
      intro kc hkc hpass
      obtain ⟨ha, hb⟩ := this kc hkc hpass
      exact ⟨ha, fun hlt => hb (by omega)⟩
    · intro kc hkc hpass
      rcases List.mem_append.mp hkc with hkc | hkc
      · obtain ⟨ha, hb⟩ := h kc hkc hpass
        refine ⟨List.mem_append_left _ ha, fun hlt => ?_⟩
        rcases hb hlt with hc | hc
        · exact List.mem_append_left _ hc
        · exact (by rw [hc]; exact List.mem_append_right _ (by simp))
      · rw [List.mem_singleton] at hkc; subst hkc
        exact absurd hpass (by simpa using h2)

/-- A company page reporting 3 populated pages whose page indicator is
stuck at 1. -/
def stuckPageEnv : PageEnv :=
  { estimatedTotalPages := 3, filingsOn := fun _ => [sampleFiling], observedPage := fun _ => 1 }

/-- A company page with 2 pages where page 1 is legitimately empty and
the indicator is consistent. -/
def sparseFirstPageEnv : PageEnv :=
  { estimatedTotalPages := 2
    filingsOn := fun k => if k = 2 then [sampleFiling] else []
    observedPage := fun k => k }

/-- C5.  The loop performs extraction on at most
`min(detectedTotalPages, maxPages)` pages, `pagesScraped` equals the
number of pages on which extraction actually ran, and every navigation
targets a page in `[2, min(detectedTotalPages, maxPages)]`; in the
concrete scenario (`maxPages = 1`, 5 available pages) exactly one page
is scraped, `pagesScraped = 1`, and no second-page navigation occurs. -/
theorem pagination_page_budget :
    (∀ (env : PageEnv) (maxPages : Nat),
      (filingPagination env maxPages).scraped = (filingPagination env maxPages).extracted.length
      ∧ (filingPagination env maxPages).scraped ≤ min env.estimatedTotalPages maxPages
      ∧ (∀ k ∈ (filingPagination env maxPages).navs,
          2 ≤ k ∧ k ≤ min env.estimatedTotalPages maxPages))
    ∧ ((extractFilingHistory fivePageEnv 1).map (fun r => r.pagesScraped) = some 1
      ∧ (filingPagination fivePageEnv 1).navs = []
      ∧ (filingPagination fivePageEnv 1).extracted = [1]) := by
  constructor
  · intro env maxPages
    refine ⟨scan_scraped_len env _ _ _ rfl, ?_, ?_⟩
    · simpa using scan_scraped_le env (min env.estimatedTotalPages maxPages) 1
        { filings := [], scraped := 0, extracted := [], navs := [], checks := [] }
    · exact scan_navs_bound env (min env.estimatedTotalPages maxPages) _ 1 _
        (by omega) (by simp)
  · refine ⟨by decide, by decide, by decide⟩

/-- C5 witness: at `maxPages = 3` on the five-page company, at most
`min 5 3` pages are scraped and page 2 is a valid navigation target. -/
theorem pagination_page_budget_witness :
    (filingPagination fivePageEnv 3).scraped ≤ min 5 3 ∧ (2 ≤ 2 ∧ 2 ≤ min 5 3) := by
  have h := pagination_page_budget.1 fivePageEnv 3
  exact ⟨h.2.1, h.2.2 2 (by decide)⟩

/-- C6 counterexample: with the page indicator stuck at 1, pages 2 and
3 are still extracted and no identity check ever runs (the pages
yielded records), refuting "the controller re-verifies that the
observed current-page indicator equals k before extracting". -/
theorem pagecheck_counterexample :
    2 ∈ (filingPagination stuckPageEnv 3).extracted
    ∧ (filingPagination stuckPageEnv 3).checks = []
    ∧ stuckPageEnv.observedPage 2 ≠ 2 := by
  refine ⟨by decide, by decide, by decide⟩

/-- C6 (amended).  The identity check runs only after a page yields
zero records (never before extraction): every check belongs to a
zero-record page and records the observed indicator, every zero-record
extracted page was checked, a failed check stops pagination (no later
page is extracted), and a zero-record page passing the check is counted
as extracted with the loop continuing while the page budget allows. -/
theorem pagination_check_semantics (env : PageEnv) (maxPages : Nat) :
    (∀ kc ∈ (filingPagination env maxPages).checks,
        env.filingsOn kc.1 = [] ∧ kc.2 = env.observedPage kc.1)
    ∧ (∀ k ∈ (filingPagination env maxPages).extracted, env.filingsOn k = [] →
        (k, env.observedPage k) ∈ (filingPagination env maxPages).checks)
    ∧ (∀ kc ∈ (filingPagination env maxPages).checks, kc.2 ≠ kc.1 →
        ∀ j ∈ (filingPagination env maxPages).extracted, j ≤ kc.1)
    ∧ (∀ kc ∈ (filingPagination env maxPages).checks, kc.2 = kc.1 →
        kc.1 ∈ (filingPagination env maxPages).extracted ∧
        (kc.1 + 1 ≤ min env.estimatedTotalPages maxPages →
          kc.1 + 1 ∈ (filingPagination env maxPages).extracted)) := by
  refine ⟨?_, ?_, ?_, ?_⟩
  · exact scan_checks_zero env _ _ _ (by simp)
  · exact scan_extracted_checked env _ _ _ (by simp)
  · exact scan_fail_stop env _ _ _ (by simp) (by simp)
  · intro kc hkc hpass
    have h := scan_pass_continue env (min env.estimatedTotalPages maxPages) 1
      { filings := [], scraped := 0, extracted := [], navs := [], checks := [] }
      (by simp) kc hkc hpass
    exact ⟨h.1, fun hb => h.2 (by omega)⟩

/-- C6 witness: page 1 is empty but the indicator matches, so the check
`(1, 1)` is recorded, page 1 counts as extracted, and the loop
continues to page 2. -/
theorem pagination_check_semantics_witness :
    (1, 1) ∈ (filingPagination sparseFirstPageEnv 2).checks
    ∧ 1 ∈ (filingPagination sparseFirstPageEnv 2).extracted
    ∧ 2 ∈ (filingPagination sparseFirstPageEnv 2).extracted := by
  have h := (pagination_check_semantics sparseFirstPageEnv 2).2.2.2 (1, 1) (by decide) rfl
  exact ⟨by decide, h.1, h.2 (by decide)⟩

/-- The quality-score composition as claim C8 words it: overview
present contributes up to 25 with 10 of it conditional on the company
name and 10 conditional on the company number; the other sections as
in the code.  Used only to exhibit the divergence from
`calculateQualityScore`. -/
def claimedQualityScoreC8 (r : ScrapingResult) : Int :=
  let ovPart : Int :=
    match r.overview with
    | some o =>
      5 + (if o.companyName ≠ "" then 10 else 0) + (if o.companyNumber ≠ "" then 10 else 0)
    | none => 0
  let filPart : Int :=
    match r.filing with
    | some fs =>
      if 0 < fs.filings.length then
        25 + (if 80 < fs.statistics.documentSuccessRate then 15
              else if 50 < fs.statistics.documentSuccessRate then 10
              else if 20 < fs.statistics.documentSuccessRate then 5 else 0)
      else 0
    | none => 0
  let pplPart : Int :=
    match r.people with
    | some p => if 0 < p.officers.length then 20 else 0
    | none => 0
  let chPart : Int := if r.charges.isSome then 15 else 0
  max 0 (min 100 (ovPart + filPart + pplPart + chPart))

/-- A result with an overview lacking both name and number and nothing
else. -/
def c8Result : ScrapingResult :=
  { query := "x", extractionTimestamp := "t", qualityScore := 0, dataIssues := []
    overview := some { companyName := "", companyNumber := "", status := "active"
                       incorporationDate := none, companyType := none
                       registeredAddress := none }
    filing := none, people := none, charges := none }

/-- C8 counterexample: with an overview present but missing both the
company name and number, the code still awards the flat 25 overview
points (recording the misses only as data issues), while the claim's
composition would award 5. -/
theorem quality_overview_counterexample :
    (calculateQualityScore c8Result).1 = 25
    ∧ claimedQualityScoreC8 c8Result = 5
    ∧ (calculateQualityScore c8Result).1 ≠ claimedQualityScoreC8 c8Result := by
  refine ⟨by decide, by decide, by decide⟩

/-- C8 (amended).  `calculateQualityScore` is clamped to `[0, 100]` and
equals `clamp(overview + filings + officers + charges)` where a present
overview contributes a flat 25 (a missing name or number is only
recorded as a data issue), filings contribute 25 plus 15/10/5/0 by the
`documentSuccessRate` thresholds `>80 / >50 / >20` — with an issue
recorded in the final else case — officers contribute 20, and a present
charges section contributes 15 (empty charges are not penalized). -/
theorem quality_score_characterization (r : ScrapingResult) :
    0 ≤ (calculateQualityScore r).1
    ∧ (calculateQualityScore r).1 ≤ 100
    ∧ (calculateQualityScore r).1 = max 0 (min 100 (
        (if r.overview.isSome then (25 : Int) else 0)
        + (match r.filing with
           | some fs =>
             if 0 < fs.filings.length then
               25 + (if 80 < fs.statistics.documentSuccessRate then (15 : Int)
                     else if 50 < fs.statistics.documentSuccessRate then 10
                     else if 20 < fs.statistics.documentSuccessRate then 5 else 0)
             else 0
           | none => 0)
        + (match r.people with
           | some p => if 0 < p.officers.length then (20 : Int) else 0
           | none => 0)
        + (if r.charges.isSome then (15 : Int) else 0)))
    ∧ (∀ fs, r.filing = some fs → 0 < fs.filings.length →
        fs.statistics.documentSuccessRate ≤ 20 →
        "Low PDF document extraction rate" ∈ (calculateQualityScore r).2) := by
  obtain ⟨q, ts, qs, di, ov, fil, ppl, ch⟩ := r
  refine ⟨?_, ?_, ?_, ?_⟩
  · exact le_max_left _ _
  · exact max_le (by norm_num) (min_le_left _ _)
  · cases ov <;> cases fil <;> cases ppl <;> cases ch <;>
      simp only [calculateQualityScore, Option.isSome_some, Option.isSome_none,
        decide_eq_true_eq, Bool.false_eq_true, if_true, if_false] <;>
      first
        | (split_ifs <;> decide)
        | decide
  · intro fs hfs h0 h20
    subst hfs
    cases ov <;> cases ppl <;> cases ch <;>
      (simp only [calculateQualityScore, decide_eq_true_eq, Bool.false_eq_true,
         if_true, if_false]
       rw [if_pos h0, if_neg (by omega : ¬80 < fs.statistics.documentSuccessRate),
         if_neg (by omega : ¬50 < fs.statistics.documentSuccessRate),
         if_neg (by omega : ¬20 < fs.statistics.documentSuccessRate)]
       split_ifs <;> simp [List.mem_append])

/-- C8 witness: a result with filings present but a zero document
success rate scores `25 + 25 + 0 = 50` and records the low-rate
issue. -/
theorem quality_score_characterization_witness :
    "Low PDF document extraction rate" ∈
      (calculateQualityScore
        { query := "x", extractionTimestamp := "t", qualityScore := 0, dataIssues := []
          overview := some { companyName := "Acme Ltd", companyNumber := "00000001"
                             status := "active", incorporationDate := none
                             companyType := none, registeredAddress := none }
          filing := some { filings := [bareFiling], totalFilings := 1, pagesScraped := 1
                           statistics := { totalFilings := 1, filingsWithDocuments := 0
                                           totalDocumentPages := some 0
                                           documentSuccessRate := 0, filingTypes := [] } }
          people := none, charges := none }).2 := by
  refine (quality_score_characterization _).2.2.2 _ rfl (by decide) (by decide)

/-! ### Orchestrator fixtures -/

/-- A filing-history page environment yielding no filings at all. -/
def emptyPagesEnv : PageEnv :=
  { estimatedTotalPages := 1, filingsOn := fun _ => [], observedPage := fun k => k }

/-- If no filing section is present, the quality scorer records the
missing-filing-history issue. -/
theorem quality_issue_no_filing (r : ScrapingResult) (h : r.filing = none) :
    "No filing history extracted" ∈ (calculateQualityScore r).2 := by
  simp only [calculateQualityScore, h]
  split_ifs <;> simp [List.mem_append]

/-- C9.  Once the company search has succeeded, `scrapeCompany` cannot
throw (the body always returns a result): each phase's internal catch
turns its failure into a `null` section while the other phases still
run and populate their sections independently; a company-search failure
is the only condition surfaced as the fatal `Scraping failed` outcome
(score 0); and when zero filings are extracted the filing section is
`null` and `dataIssues` records that no filing history was
extracted. -/
theorem scrape_error_isolation :
    (∀ (q ts : String) (ov : Except String OverviewData) (fn : Except String PageEnv)
        (mp : Nat) (pe : Except String (Option PeopleData)) (ch : Except String ChargesData),
      (∃ res, scrapeCompanyBody q ts (Except.ok ()) ov fn mp pe ch = Except.ok res)
      ∧ (scrapeCompany q ts (Except.ok ()) ov fn mp pe ch).overview = phaseCatch ov
      ∧ (scrapeCompany q ts (Except.ok ()) ov fn mp pe ch).filing =
          (match fn with
           | .error _ => none
           | .ok env => extractFilingHistory env mp)
      ∧ (scrapeCompany q ts (Except.ok ()) ov fn mp pe ch).people =
          (match pe with
           | .error _ => none
           | .ok v => v)
      ∧ (scrapeCompany q ts (Except.ok ()) ov fn mp pe ch).charges = phaseCatch ch)
    ∧ (∀ (q ts msg : String) (ov : Except String OverviewData) (fn : Except String PageEnv)
        (mp : Nat) (pe : Except String (Option PeopleData)) (ch : Except String ChargesData),
      scrapeCompany q ts (Except.error msg) ov fn mp pe ch =
        { query := q, extractionTimestamp := ts, qualityScore := 0
          dataIssues := ["Scraping failed: " ++ msg]
          overview := none, filing := none, people := none, charges := none })
    ∧ (∀ (q ts : String) (ov : Except String OverviewData) (fn : Except String PageEnv)
        (mp : Nat) (pe : Except String (Option PeopleData)) (ch : Except String ChargesData),
      (scrapeCompany q ts (Except.ok ()) ov fn mp pe ch).filing = none →
        "No filing history extracted" ∈
          (scrapeCompany q ts (Except.ok ()) ov fn mp pe ch).dataIssues) := by
  refine ⟨?_, ?_, ?_⟩
  · intro q ts ov fn mp pe ch
    exact ⟨⟨_, rfl⟩, rfl, rfl, rfl, rfl⟩
  · intro q ts msg ov fn mp pe ch
    rfl
  · intro q ts ov fn mp pe ch hnone
    exact quality_issue_no_filing _ hnone

/-- C9 witness: with a failed overview extraction and a filing page
yielding zero filings, the result still carries the people and charges
outcomes, the filing section is `null`, and the missing-filing-history
issue is recorded. -/
theorem scrape_error_isolation_witness :
    (scrapeCompany "Acme" "t" (Except.ok ()) (Except.error "overview failed")
        (Except.ok emptyPagesEnv) 1 (Except.ok none) (Except.ok { charges := [] })).filing = none
    ∧ "No filing history extracted" ∈
        (scrapeCompany "Acme" "t" (Except.ok ()) (Except.error "overview failed")
          (Except.ok emptyPagesEnv) 1 (Except.ok none) (Except.ok { charges := [] })).dataIssues
    ∧ (scrapeCompany "Acme" "t" (Except.ok ()) (Except.error "overview failed")
        (Except.ok emptyPagesEnv) 1 (Except.ok none) (Except.ok { charges := [] })).overview = none := by
  have h := scrape_error_isolation.1 "Acme" "t" (Except.error "overview failed")
    (Except.ok emptyPagesEnv) 1 (Except.ok none) (Except.ok { charges := [] })
  have hfil : (scrapeCompany "Acme" "t" (Except.ok ()) (Except.error "overview failed")
      (Except.ok emptyPagesEnv) 1 (Except.ok none) (Except.ok { charges := [] })).filing = none := by
    rw [h.2.2.1]; decide
  refine ⟨hfil, ?_, by rw [h.2.1]; rfl⟩
  exact scrape_error_isolation.2.2 "Acme" "t" (Except.error "overview failed")
    (Except.ok emptyPagesEnv) 1 (Except.ok none) (Except.ok { charges := [] }) hfil

/-- C10 witness: an out-of-range value 99 is clamped to 50 and the
request still reaches the scraper with that value. -/
theorem validateMaxPages_clamps_witness :
    (validateMaxPages (JSValue.num 99)).2 =
        (if (99 : Int) < 1 then 1 else if 50 < (99 : Int) then 50 else 99)
    ∧ enhancedReportHandler true (JSValue.num 99) JSValue.undefined =
        HandlerOutcome.scraped (validateMaxPages (JSValue.num 99)).2
          (validateMaxPages (if jsTruthy JSValue.undefined then JSValue.undefined else JSValue.num 5)).2 :=
  ⟨(validateMaxPages_clamps (JSValue.num 99)).2.2.2.1 99 (by decide) (by decide),
   (validateMaxPages_clamps (JSValue.num 99)).2.2.2.2.1 JSValue.undefined⟩
